import Mathlib

/-!
Verification of the ThinkGear-style protocol framer and payload decoders of
the brainwave repository (src/main.py, src/band_sep.py, src/stress.py).

All three scripts contain a character-identical framer `parse_packet`
operating on `self.packet_buffer` / `self.packet_state` /
`self.payload_length` / `self.payload`; it is embedded once below.
The three scripts' `parse_payload` decoders differ and are embedded
separately in namespaces `MindSet` (main.py), `BandSep` (band_sep.py)
and `Stress` (stress.py).

Bytes are modelled as `Nat` (the source manipulates `bytearray` elements,
which are always in `0..255`; no operation below depends on an upper bound
unless noted).
-/

/-- The framer states, named exactly as the source's `packet_state` strings
`'SYNC1' | 'SYNC2' | 'PLENGTH' | 'PAYLOAD' | 'CHECKSUM'`. -/
inductive FramerState where
  | SYNC1
  | SYNC2
  | PLENGTH
  | PAYLOAD
  | CHECKSUM
deriving DecidableEq

/-- The mutable parsing state of a monitor object: `self.packet_state`,
`self.payload_length`, `self.payload`, `self.packet_buffer`, together with
`out`, the ordered list of payloads forwarded to `self.parse_payload`
by the `CHECKSUM` branch (the observable output of the framer). -/
structure Monitor where
  packet_state : FramerState
  payload_length : Nat
  payload : List Nat
  packet_buffer : List Nat
  out : List (List Nat)
deriving DecidableEq

/-- Source: `calculated_checksum = (~sum(self.payload) & 0xFF)`.
Python `~s` is `-s - 1` and `& 0xFF` of a negative integer is the
nonnegative remainder modulo 256, which is `Int.emod`. -/
def calc_checksum (payload : List Nat) : Nat :=
  (((-(payload.sum : Int)) - 1) % 256).toNat

/-- Termination measure helper for `parse_packet`: the `PAYLOAD` state can
move to `CHECKSUM` without consuming bytes (when `payload_length = 0`),
so it ranks above all other states. -/
def stateRank : FramerState → Nat
  | .PAYLOAD => 1
  | _ => 0

/-- The framer loop `parse_packet` (identical in src/main.py:198-243,
src/band_sep.py:117-162, src/stress.py:244-285):

    while len(self.packet_buffer) > 0:
        if self.packet_state == 'SYNC1': ...

Each loop iteration becomes one recursive call.  The redundant inner
`if len(self.packet_buffer) >= 1` guards of the `SYNC2`/`PLENGTH`/`CHECKSUM`
branches are implied by the loop guard and are kept explicitly in the
checked variant `parse_packetC` below.  The `CHECKSUM` branch's call of
`self.parse_payload(self.payload)` is recorded by appending the forwarded
payload to `out`. -/
def parse_packet (m : Monitor) : Monitor :=
  if h0 : m.packet_buffer = [] then m
  else
    match hs : m.packet_state with
    | .SYNC1 =>
        parse_packet { m with
          packet_state := if m.packet_buffer.headD 0 = 0xAA then .SYNC2 else .SYNC1,
          packet_buffer := m.packet_buffer.drop 1 }
    | .SYNC2 =>
        parse_packet { m with
          packet_state := if m.packet_buffer.headD 0 = 0xAA then .PLENGTH else .SYNC1,
          packet_buffer := m.packet_buffer.drop 1 }
    | .PLENGTH =>
        parse_packet { m with
          packet_state := if 170 < m.packet_buffer.headD 0 then .SYNC1 else .PAYLOAD,
          packet_buffer := m.packet_buffer.drop 1,
          payload_length := m.packet_buffer.headD 0,
          payload := [] }
    | .PAYLOAD =>
        if m.payload_length ≤ m.packet_buffer.length then
          parse_packet { m with
            payload := m.payload ++ m.packet_buffer.take m.payload_length,
            packet_buffer := m.packet_buffer.drop m.payload_length,
            packet_state := .CHECKSUM }
        else m
    | .CHECKSUM =>
        parse_packet { m with
          packet_buffer := m.packet_buffer.drop 1,
          packet_state := .SYNC1,
          out := if m.packet_buffer.headD 0 = calc_checksum m.payload then
                   m.out ++ [m.payload]
                 else m.out }
termination_by 2 * m.packet_buffer.length + stateRank m.packet_state
decreasing_by
  all_goals
    have hpos : 0 < m.packet_buffer.length := List.length_pos.mpr h0
    simp only [List.length_drop, stateRank, hs]
  all_goals (try split) <;> omega

/-- `update_plot` (src/main.py:245-249 and twins): newly read serial bytes
are appended to `self.packet_buffer` and then `self.parse_packet()` runs. -/
def feed (m : Monitor) (chunk : List Nat) : Monitor :=
  parse_packet { m with packet_buffer := m.packet_buffer ++ chunk }

/-- The freshly constructed monitor: `self.packet_buffer = bytearray()`,
`self.packet_state = 'SYNC1'` (src/main.py:35-36). -/
def initMonitor : Monitor :=
  { packet_state := .SYNC1
    payload_length := 0
    payload := []
    packet_buffer := []
    out := [] }

/-- The wire format of one well-formed packet:
`0xAA 0xAA <len> <payload> <checksum>` (spec section 6). -/
def frame (P : List Nat) : List Nat :=
  [0xAA, 0xAA, P.length] ++ P ++ [calc_checksum P]

/- ### List helpers -/

theorem headD_append_left (l l' : List Nat) (h : l ≠ []) :
    (l ++ l').headD 0 = l.headD 0 := by
  cases l with
  | nil => exact absurd rfl h
  | cons a t => simp

theorem drop_one_append_left (l l' : List Nat) (h : l ≠ []) :
    (l ++ l').drop 1 = l.drop 1 ++ l' := by
  cases l with
  | nil => exact absurd rfl h
  | cons a t => simp

/- ### One-iteration unfoldings of the framer loop -/

theorem parse_packet_nil (m : Monitor) (h : m.packet_buffer = []) :
    parse_packet m = m := by
  rw [parse_packet.eq_def]
  simp [h]

theorem parse_packet_step_SYNC1 (m : Monitor)
    (h0 : m.packet_buffer ≠ []) (hs : m.packet_state = .SYNC1) :
    parse_packet m = parse_packet { m with
      packet_state := if m.packet_buffer.headD 0 = 0xAA then .SYNC2 else .SYNC1,
      packet_buffer := m.packet_buffer.drop 1 } := by
  conv_lhs => rw [parse_packet.eq_def]
  rw [dif_neg h0]
  split <;> simp_all

theorem parse_packet_step_SYNC2 (m : Monitor)
    (h0 : m.packet_buffer ≠ []) (hs : m.packet_state = .SYNC2) :
    parse_packet m = parse_packet { m with
      packet_state := if m.packet_buffer.headD 0 = 0xAA then .PLENGTH else .SYNC1,
      packet_buffer := m.packet_buffer.drop 1 } := by
  conv_lhs => rw [parse_packet.eq_def]
  rw [dif_neg h0]
  split <;> simp_all

theorem parse_packet_step_PLENGTH (m : Monitor)
    (h0 : m.packet_buffer ≠ []) (hs : m.packet_state = .PLENGTH) :
    parse_packet m = parse_packet { m with
      packet_state := if 170 < m.packet_buffer.headD 0 then .SYNC1 else .PAYLOAD,
      packet_buffer := m.packet_buffer.drop 1,
      payload_length := m.packet_buffer.headD 0,
      payload := [] } := by
  conv_lhs => rw [parse_packet.eq_def]
  rw [dif_neg h0]
  split <;> simp_all

theorem parse_packet_step_PAYLOAD (m : Monitor)
    (h0 : m.packet_buffer ≠ []) (hs : m.packet_state = .PAYLOAD)
    (hlen : m.payload_length ≤ m.packet_buffer.length) :
    parse_packet m = parse_packet { m with
      payload := m.payload ++ m.packet_buffer.take m.payload_length,
      packet_buffer := m.packet_buffer.drop m.payload_length,
      packet_state := .CHECKSUM } := by
  conv_lhs => rw [parse_packet.eq_def]
  rw [dif_neg h0]
  split <;> simp_all

theorem parse_packet_stuck_PAYLOAD (m : Monitor)
    (hs : m.packet_state = .PAYLOAD)
    (hlen : ¬ m.payload_length ≤ m.packet_buffer.length) :
    parse_packet m = m := by
  rw [parse_packet.eq_def]
  by_cases h0 : m.packet_buffer = []
  · simp [h0]
  · rw [dif_neg h0]
    split <;> simp_all

theorem parse_packet_step_CHECKSUM (m : Monitor)
    (h0 : m.packet_buffer ≠ []) (hs : m.packet_state = .CHECKSUM) :
    parse_packet m = parse_packet { m with
      packet_buffer := m.packet_buffer.drop 1,
      packet_state := .SYNC1,
      out := if m.packet_buffer.headD 0 = calc_checksum m.payload then
               m.out ++ [m.payload]
             else m.out } := by
  conv_lhs => rw [parse_packet.eq_def]
  rw [dif_neg h0]
  split <;> simp_all

/- ### The maximal-progress invariant of the framer loop -/

theorem parse_packet_inv (m : Monitor) :
    (parse_packet m).packet_buffer = [] ∨
      ((parse_packet m).packet_state = .PAYLOAD ∧
        (parse_packet m).packet_buffer.length < (parse_packet m).payload_length) := by
  induction m using parse_packet.induct with
  | case1 x h => rw [parse_packet_nil x h, h]; exact Or.inl rfl
  | case2 x h0 hs ih => rw [parse_packet_step_SYNC1 x h0 hs]; exact ih
  | case3 x h0 hs ih => rw [parse_packet_step_SYNC2 x h0 hs]; exact ih
  | case4 x h0 hs ih => rw [parse_packet_step_PLENGTH x h0 hs]; exact ih
  | case5 x h0 hs hlen ih => rw [parse_packet_step_PAYLOAD x h0 hs hlen]; exact ih
  | case6 x h0 hs hlen =>
      rw [parse_packet_stuck_PAYLOAD x hs hlen]
      exact Or.inr ⟨hs, by omega⟩
  | case7 x h0 hs ih => rw [parse_packet_step_CHECKSUM x h0 hs]; exact ih

theorem parse_packet_idem (m : Monitor) :
    parse_packet (parse_packet m) = parse_packet m := by
  rcases parse_packet_inv m with h | ⟨hs, hlen⟩
  · exact parse_packet_nil _ h
  · exact parse_packet_stuck_PAYLOAD _ hs (by omega)

/-- If the framer has come to rest in a state other than `PAYLOAD`, its
buffer is empty. -/
theorem parse_packet_buffer_empty (m : Monitor)
    (h : (parse_packet m).packet_state ≠ .PAYLOAD) :
    (parse_packet m).packet_buffer = [] := by
  rcases parse_packet_inv m with h' | ⟨hs, _⟩
  · exact h'
  · exact absurd hs h


/- ### Chunk independence: feeding is insensitive to chunk boundaries -/

theorem feed_parse_packet (m : Monitor) (v : List Nat) :
    feed (parse_packet m) v =
      parse_packet { m with packet_buffer := m.packet_buffer ++ v } := by
  induction m using parse_packet.induct with
  | case1 x h =>
      rw [parse_packet_nil x h]
      rfl
  | case2 x h0 hs ih =>
      have hne : x.packet_buffer ++ v ≠ [] := by
        simp [h0]
      simp only [dite_eq_ite] at ih
      rw [parse_packet_step_SYNC1 x h0 hs, ih,
          parse_packet_step_SYNC1 { x with packet_buffer := x.packet_buffer ++ v } hne hs]
      rw [headD_append_left _ _ h0, drop_one_append_left _ _ h0]
  | case3 x h0 hs ih =>
      have hne : x.packet_buffer ++ v ≠ [] := by
        simp [h0]
      simp only [dite_eq_ite] at ih
      rw [parse_packet_step_SYNC2 x h0 hs, ih,
          parse_packet_step_SYNC2 { x with packet_buffer := x.packet_buffer ++ v } hne hs]
      rw [headD_append_left _ _ h0, drop_one_append_left _ _ h0]
  | case4 x h0 hs ih =>
      have hne : x.packet_buffer ++ v ≠ [] := by
        simp [h0]
      simp only [dite_eq_ite] at ih
      rw [parse_packet_step_PLENGTH x h0 hs, ih,
          parse_packet_step_PLENGTH { x with packet_buffer := x.packet_buffer ++ v } hne hs]
      rw [headD_append_left _ _ h0, drop_one_append_left _ _ h0]
  | case5 x h0 hs hlen ih =>
      have hne : x.packet_buffer ++ v ≠ [] := by
        simp [h0]
      have hlen' : x.payload_length ≤ (x.packet_buffer ++ v).length := by
        simp only [List.length_append]
        omega
      rw [parse_packet_step_PAYLOAD x h0 hs hlen, ih,
          parse_packet_step_PAYLOAD { x with packet_buffer := x.packet_buffer ++ v } hne hs hlen']
      simp [List.take_append_of_le_length hlen, List.drop_append_of_le_length hlen]
  | case6 x h0 hs hlen =>
      rw [parse_packet_stuck_PAYLOAD x hs hlen]
      rfl
  | case7 x h0 hs ih =>
      have hne : x.packet_buffer ++ v ≠ [] := by
        simp [h0]
      simp only [dite_eq_ite] at ih
      rw [parse_packet_step_CHECKSUM x h0 hs, ih,
          parse_packet_step_CHECKSUM { x with packet_buffer := x.packet_buffer ++ v } hne hs]
      rw [headD_append_left _ _ h0, drop_one_append_left _ _ h0]

theorem feed_append (m : Monitor) (u v : List Nat) :
    feed m (u ++ v) = feed (feed m u) v := by
  show _ = feed (parse_packet { m with packet_buffer := m.packet_buffer ++ u }) v
  rw [feed_parse_packet]
  simp [feed, List.append_assoc]

theorem foldl_feed_parse_packet (chunks : List (List Nat)) :
    ∀ m : Monitor, chunks.foldl feed (parse_packet m) =
      parse_packet { m with packet_buffer := m.packet_buffer ++ chunks.flatten } := by
  induction chunks with
  | nil =>
      intro m
      simp
  | cons c cs ih =>
      intro m
      rw [List.foldl_cons, feed_parse_packet, ih]
      simp [List.append_assoc]

theorem foldl_feed_init (chunks : List (List Nat)) :
    chunks.foldl feed initMonitor = feed initMonitor chunks.flatten := by
  have h := foldl_feed_parse_packet chunks initMonitor
  rw [parse_packet_nil initMonitor rfl] at h
  rw [h]
  rfl

/- ### Symbolic run of one framed packet from the idle state -/

theorem run_frame (m : Monitor) (P : List Nat) (c : Nat)
    (hs : m.packet_state = .SYNC1) (hb : m.packet_buffer = [])
    (hP : P.length ≤ 170) :
    feed m ([0xAA, 0xAA, P.length] ++ P ++ [c]) =
      { packet_state := .SYNC1, payload_length := P.length, payload := P,
        packet_buffer := [],
        out := if c = calc_checksum P then m.out ++ [P] else m.out } := by
  obtain ⟨s, L0, p0, buf, out0⟩ := m
  simp only at hs hb
  subst hs
  subst hb
  show parse_packet ⟨.SYNC1, L0, p0, [] ++ ([0xAA, 0xAA, P.length] ++ P ++ [c]), out0⟩ = _
  have e0 : ([] : List Nat) ++ ([0xAA, 0xAA, P.length] ++ P ++ [c])
      = 0xAA :: 0xAA :: P.length :: (P ++ [c]) := by
    simp
  rw [e0]
  have e1 : parse_packet ⟨.SYNC1, L0, p0, 0xAA :: 0xAA :: P.length :: (P ++ [c]), out0⟩
      = parse_packet ⟨.SYNC2, L0, p0, 0xAA :: P.length :: (P ++ [c]), out0⟩ := by
    rw [parse_packet_step_SYNC1 _ (by simp) rfl]
    simp
  have e2 : parse_packet ⟨.SYNC2, L0, p0, 0xAA :: P.length :: (P ++ [c]), out0⟩
      = parse_packet ⟨.PLENGTH, L0, p0, P.length :: (P ++ [c]), out0⟩ := by
    rw [parse_packet_step_SYNC2 _ (by simp) rfl]
    simp
  have e3 : parse_packet ⟨.PLENGTH, L0, p0, P.length :: (P ++ [c]), out0⟩
      = parse_packet ⟨.PAYLOAD, P.length, [], P ++ [c], out0⟩ := by
    rw [parse_packet_step_PLENGTH _ (by simp) rfl]
    have : ¬ 170 < P.length := by omega
    simp [this]
  have e4 : parse_packet ⟨.PAYLOAD, P.length, [], P ++ [c], out0⟩
      = parse_packet ⟨.CHECKSUM, P.length, P, [c], out0⟩ := by
    rw [parse_packet_step_PAYLOAD _ (by simp) rfl (by simp)]
    simp [List.take_left, List.drop_left]
  have e5 : parse_packet ⟨.CHECKSUM, P.length, P, [c], out0⟩
      = parse_packet ⟨.SYNC1, P.length, P, [],
          if c = calc_checksum P then out0 ++ [P] else out0⟩ := by
    rw [parse_packet_step_CHECKSUM _ (by simp) rfl]
    simp
  rw [e1, e2, e3, e4, e5, parse_packet_nil _ rfl]

/-- Claim C1: for every payload `P` with `length P ≤ 170` and every way of
splitting the framed byte sequence `0xAA 0xAA len(P) P checksum(P)` into
chunks fed to the framer starting in `SYNC1` with an empty buffer, exactly
one payload is forwarded to the decoder and it equals `P`, independently of
the chunk boundaries. -/
theorem framing_round_trip (P : List Nat) (chunks : List (List Nat))
    (hP : P.length ≤ 170) (hc : chunks.flatten = frame P) :
    (chunks.foldl feed initMonitor).out = [P] := by
  rw [foldl_feed_init, hc,
      show frame P = [0xAA, 0xAA, P.length] ++ P ++ [calc_checksum P] from rfl,
      run_frame initMonitor P (calc_checksum P) rfl rfl hP]
  simp [initMonitor]

theorem framing_round_trip_witness :
    ([4, 60] : List Nat).length ≤ 170 ∧
      ([[170], [170, 2, 4], [60, 191]] : List (List Nat)).flatten = frame [4, 60] ∧
      (([[170], [170, 2, 4], [60, 191]] : List (List Nat)).foldl feed initMonitor).out
        = [[4, 60]] :=
  ⟨by decide, by decide,
    framing_round_trip [4, 60] [[170], [170, 2, 4], [60, 191]] (by decide) (by decide)⟩

/-- Claim C2: in the `CHECKSUM` state a complete packet's payload is
forwarded to the decoder iff the received checksum byte equals
`(~sum(payload)) & 0xFF`; flipping any bit of the checksum byte of an
otherwise well-formed packet forwards zero payloads and leaves the framer
back in `SYNC1`, ready to frame the next packet (nothing is surfaced as an
error: the only effect is the absence of a forwarded payload). -/
theorem checksum_gate (P : List Nat) (c : Nat) (hP : P.length ≤ 170) :
    ((feed initMonitor ([0xAA, 0xAA, P.length] ++ P ++ [c])).out
        = if c = calc_checksum P then [P] else []) ∧
      (feed initMonitor ([0xAA, 0xAA, P.length] ++ P ++ [c])).packet_state = .SYNC1 ∧
      ∀ k, k < 8 →
        (feed initMonitor
            ([0xAA, 0xAA, P.length] ++ P ++ [calc_checksum P ^^^ 2 ^ k])).out = [] ∧
          (feed initMonitor
              ([0xAA, 0xAA, P.length] ++ P ++ [calc_checksum P ^^^ 2 ^ k])).packet_state
            = .SYNC1 := by
  refine ⟨?_, ?_, ?_⟩
  · rw [run_frame initMonitor P c rfl rfl hP]
    split <;> simp [initMonitor]
  · rw [run_frame initMonitor P c rfl rfl hP]
  · intro k hk
    have hne : calc_checksum P ^^^ 2 ^ k ≠ calc_checksum P := by
      intro h
      have h' := congrArg (fun x => calc_checksum P ^^^ x) h
      simp only [← Nat.xor_assoc, Nat.xor_self, Nat.zero_xor] at h'
      exact (Nat.pos_pow_of_pos k (by omega)).ne' h'
    rw [run_frame initMonitor P (calc_checksum P ^^^ 2 ^ k) rfl rfl hP]
    simp [hne, initMonitor]

theorem checksum_gate_witness :
    ([2, 0] : List Nat).length ≤ 170 ∧
      (((feed initMonitor ([0xAA, 0xAA, 2] ++ [2, 0] ++ [7])).out
          = if 7 = calc_checksum [2, 0] then [[2, 0]] else []) ∧
        (feed initMonitor ([0xAA, 0xAA, 2] ++ [2, 0] ++ [7])).packet_state = .SYNC1 ∧
        ∀ k, k < 8 →
          (feed initMonitor
              ([0xAA, 0xAA, 2] ++ [2, 0] ++ [calc_checksum [2, 0] ^^^ 2 ^ k])).out = [] ∧
            (feed initMonitor
                ([0xAA, 0xAA, 2] ++ [2, 0] ++ [calc_checksum [2, 0] ^^^ 2 ^ k])).packet_state
              = .SYNC1) :=
  ⟨by decide, checksum_gate [2, 0] 7 (by decide)⟩

/- ### Claim C3: resynchronization after noise -/

/-- Whether a byte string is one complete well-formed frame:
`0xAA 0xAA <len ≤ 170> <len payload bytes> <matching checksum>`. -/
def isValidFrame (w : List Nat) : Bool :=
  match w with
  | 170 :: 170 :: L :: rest =>
      decide (L ≤ 170) && (rest.length == L + 1)
        && (rest.drop L == [calc_checksum (rest.take L)])
  | _ => false

/-- Whether some contiguous substring of `N` is a complete well-formed
frame. -/
def hasValidFrame (N : List Nat) : Bool :=
  (List.range (N.length + 1)).any fun i =>
    (List.range (N.length + 1)).any fun j => isValidFrame ((N.drop i).take j)

/-- Claim C3 counterexample: the noise `0xAA 0xAA` contains no valid frame,
yet feeding it ahead of the well-formed empty-payload packet
`0xAA 0xAA 0x00 0xFF` forwards nothing: the noise is mistaken for a sync
pair, the packet's own sync byte `0xAA = 170` is consumed as a length byte,
and the framer suspends awaiting a 170-byte payload. -/
theorem resync_noise_counterexample :
    hasValidFrame [0xAA, 0xAA] = false ∧
      ([0xAA, 0xAA, 0, 0xFF] : List Nat) = frame [] ∧
      (feed initMonitor ([0xAA, 0xAA] ++ frame [])).out = [] := by
  refine ⟨by decide, by decide, ?_⟩
  have hf : frame [] = [170, 170, 0, 255] := by decide
  rw [hf]
  simp [feed, initMonitor, parse_packet]

/-- Claim C3 (amended): feeding noise `N` followed by a well-formed packet
with payload `P` (length ≤ 170) forwards `P`, provided feeding the noise
alone leaves the framer in `SYNC1` (noise that merely starts a partial
frame — e.g. a bare sync pair — can swallow a following packet even though
the noise contains no valid frame). -/
theorem resync_after_noise (N P : List Nat) (hP : P.length ≤ 170)
    (hN : (feed initMonitor N).packet_state = .SYNC1) :
    (feed initMonitor (N ++ frame P)).out = (feed initMonitor N).out ++ [P] := by
  have hbuf : (feed initMonitor N).packet_buffer = [] := by
    apply parse_packet_buffer_empty
    rw [show parse_packet { initMonitor with
          packet_buffer := initMonitor.packet_buffer ++ N } = feed initMonitor N from rfl,
        hN]
    decide
  rw [feed_append, show frame P = [0xAA, 0xAA, P.length] ++ P ++ [calc_checksum P] from rfl,
      run_frame (feed initMonitor N) P (calc_checksum P) hN hbuf hP]
  simp

theorem resync_after_noise_witness :
    ([2, 0] : List Nat).length ≤ 170 ∧
      (feed initMonitor [7]).packet_state = .SYNC1 ∧
      (feed initMonitor ([7] ++ frame [2, 0])).out
        = (feed initMonitor [7]).out ++ [[2, 0]] :=
  ⟨by decide, by simp [feed, initMonitor, parse_packet],
    resync_after_noise [7] [2, 0] (by decide)
      (by simp [feed, initMonitor, parse_packet])⟩

/-- Claim C4: in the `SYNC2` state, the next byte `b` moves the framer to
`PLENGTH` if `b = 0xAA` and back to `SYNC1` otherwise; in both cases `b` is
consumed — the continuation processes only the remaining bytes `rest`, so a
failed `b` is not reconsidered as a `SYNC1` candidate in the same step. -/
theorem sync2_consumes_byte (m : Monitor) (b : Nat) (rest : List Nat)
    (hs : m.packet_state = .SYNC2) (hb : m.packet_buffer = b :: rest) :
    parse_packet m = parse_packet { m with
      packet_state := if b = 0xAA then .PLENGTH else .SYNC1,
      packet_buffer := rest } := by
  rw [parse_packet_step_SYNC2 m (by rw [hb]; simp) hs, hb]
  simp

theorem sync2_consumes_byte_witness :
    parse_packet ⟨.SYNC2, 0, [], [5], []⟩
      = parse_packet ⟨if (5 : Nat) = 0xAA then .PLENGTH else .SYNC1, 0, [], [], []⟩ :=
  sync2_consumes_byte ⟨.SYNC2, 0, [], [5], []⟩ 5 [] rfl rfl

/-- Claim C5: in the `PLENGTH` state, a length byte `b > 170` aborts the
packet attempt: the framer returns to `SYNC1` immediately, with an empty
payload accumulator, and the bytes after the rejected length byte are
re-examined from the sync-search state (none is consumed as payload);
a length byte `b ≤ 170` moves to `PAYLOAD` with an empty accumulator and
declared length `b`. -/
theorem plength_gate (m : Monitor) (b : Nat) (rest : List Nat)
    (hs : m.packet_state = .PLENGTH) (hb : m.packet_buffer = b :: rest) :
    parse_packet m = parse_packet { m with
      packet_state := if 170 < b then .SYNC1 else .PAYLOAD,
      packet_buffer := rest,
      payload_length := b,
      payload := [] } := by
  rw [parse_packet_step_PLENGTH m (by rw [hb]; simp) hs, hb]
  simp

theorem plength_gate_witness :
    parse_packet ⟨.PLENGTH, 0, [], [171, 1, 2], []⟩
      = parse_packet ⟨if 170 < (171 : Nat) then .SYNC1 else .PAYLOAD, 171, [], [1, 2], []⟩ :=
  plength_gate ⟨.PLENGTH, 0, [], [171, 1, 2], []⟩ 171 [1, 2] rfl rfl

/-- Claim C10 (implicit maximal-progress invariant): whenever `parse_packet`
returns, the byte buffer is empty, unless the state is `PAYLOAD` and the
buffer holds strictly fewer bytes than the declared payload length; the
framer never returns while a processable byte remains buffered. -/
theorem parse_packet_maximal_progress (m : Monitor) :
    (parse_packet m).packet_buffer = [] ∨
      ((parse_packet m).packet_state = .PAYLOAD ∧
        (parse_packet m).packet_buffer.length < (parse_packet m).payload_length) :=
  parse_packet_inv m

/- ### Payload decoders -/

/-- Band names, in the fixed insertion order of the `self.bands` dict of
band_sep.py:26-35 and stress.py:33-42. -/
inductive BandName where
  | Delta
  | Theta
  | LowAlpha
  | HighAlpha
  | LowBeta
  | HighBeta
  | LowGamma
  | MidGamma
deriving DecidableEq

/-- One decoded reading, as produced by the `parse_payload` methods:
`self.raw_data.append` (RawEEG), `self.signal_quality = value`
(SignalQuality), `self.attention_data.append` (Attention),
`self.meditation_data.append` (Meditation),
`self.bands[band_name].append(value)` (BandPower). -/
inductive DataItem where
  | SignalQuality (value : Nat)
  | RawEEG (value : Int)
  | Attention (value : Nat)
  | Meditation (value : Nat)
  | BandPower (band : BandName) (value : Nat)
deriving DecidableEq

/-- `int.from_bytes(bs, byteorder='big', signed=False)` over a byte list. -/
def from_bytes_be (l : List Nat) : Nat :=
  l.foldl (fun acc b => acc * 256 + b) 0

/-- `int.from_bytes(value_data[:2], byteorder='big', signed=True)` over a
byte list with at least two byte-valued (< 256) entries. -/
def from_bytes_2_signed (value_data : List Nat) : Int :=
  let u := from_bytes_be (value_data.take 2)
  if u < 32768 then (u : Int) else (u : Int) - 65536

def bandsOrder : List BandName :=
  [.Delta, .Theta, .LowAlpha, .HighAlpha, .LowBeta, .HighBeta, .LowGamma, .MidGamma]

/-- The `code == 0x83` loop of band_sep.py:89-97 / stress.py:205-212:
for each band index, 3 bytes at `value_data[band_idx*3 : band_idx*3+3]`,
big-endian unsigned. -/
def bandItems (value_data : List Nat) : List DataItem :=
  bandsOrder.enum.map fun p =>
    DataItem.BandPower p.2 (from_bytes_be ((value_data.drop (3 * p.1)).take 3))

namespace MindSet

/-- `MindSetMonitor.parse_payload` (src/main.py:134-196) as a pure function
from the payload to the list of decoded items, in emission order.  The
source's index-based `while i < len(payload)` loop is rendered as list
recursion; the inner `while ... payload[i] == 0x55` skip loop becomes the
`b = 0x55` recursion (one escape byte skipped per step, `extended_code_level`
is never read).  A single-byte code with no value byte left reads the value
as 0 (`value = payload[i] if i < len(payload) else 0`). -/
def parse_payload (payload : List Nat) : List DataItem :=
  match payload with
  | [] => []
  | b :: rest =>
    if b = 0x55 then parse_payload rest
    else if b &&& 0x80 ≠ 0 then
      match rest with
      | [] => []
      | length :: rest2 =>
        (if b = 0x80 then
           if 2 ≤ (rest2.take length).length then
             [DataItem.RawEEG (from_bytes_2_signed (rest2.take length))]
           else []
         else []) ++ parse_payload (rest2.drop length)
    else
      (if b = 0x02 then [DataItem.SignalQuality (rest.headD 0)]
       else if b = 0x04 then [DataItem.Attention (rest.headD 0)]
       else if b = 0x05 then [DataItem.Meditation (rest.headD 0)]
       else []) ++ parse_payload (rest.drop 1)
termination_by payload.length
decreasing_by
  all_goals simp [List.length_drop]
  all_goals omega

end MindSet

namespace BandSep

/-- `BrainwaveMonitor.parse_payload` (src/band_sep.py:63-115).  Differs from
main.py's decoder: the multi-byte branch recognizes `0x83` (eight band
powers, requiring ≥ 24 value bytes) before `0x80`, and the single-byte
branch stops decoding (`if i >= len(payload): break`) when no value byte
remains instead of reading 0. -/
def parse_payload (payload : List Nat) : List DataItem :=
  match payload with
  | [] => []
  | b :: rest =>
    if b = 0x55 then parse_payload rest
    else if b &&& 0x80 ≠ 0 then
      match rest with
      | [] => []
      | length :: rest2 =>
        (if b = 0x83 then
           if 24 ≤ (rest2.take length).length then bandItems (rest2.take length)
           else []
         else if b = 0x80 then
           if 2 ≤ (rest2.take length).length then
             [DataItem.RawEEG (from_bytes_2_signed (rest2.take length))]
           else []
         else []) ++ parse_payload (rest2.drop length)
    else
      match rest with
      | [] => []
      | v :: rest2 =>
        (if b = 0x02 then [DataItem.SignalQuality v] else []) ++ parse_payload rest2
termination_by payload.length
decreasing_by
  all_goals simp [List.length_drop]
  all_goals omega

end BandSep

namespace Stress

/-- `BrainwaveMonitor.parse_payload` (src/stress.py:181-242).  Same shape as
band_sep.py's decoder but the multi-byte branch only recognizes `0x83`
(followed by the derived-metric update, which emits no decoded item), and
the single-byte branch only recognizes `0x02`; it likewise stops decoding
when a single-byte code has no value byte left. -/
def parse_payload (payload : List Nat) : List DataItem :=
  match payload with
  | [] => []
  | b :: rest =>
    if b = 0x55 then parse_payload rest
    else if b &&& 0x80 ≠ 0 then
      match rest with
      | [] => []
      | length :: rest2 =>
        (if b = 0x83 then
           if 24 ≤ (rest2.take length).length then bandItems (rest2.take length)
           else []
         else []) ++ parse_payload (rest2.drop length)
    else
      match rest with
      | [] => []
      | v :: rest2 =>
        (if b = 0x02 then [DataItem.SignalQuality v] else []) ++ parse_payload rest2
termination_by payload.length
decreasing_by
  all_goals simp [List.length_drop]
  all_goals omega

end Stress

/- ### Claim C6: the 0x83 band-power row -/

theorem take3_drop (l : List Nat) (i : Nat) (h : i + 3 ≤ l.length) :
    (l.drop i).take 3 = [l.getD i 0, l.getD (i + 1) 0, l.getD (i + 2) 0] := by
  have h1 : i < l.length := by omega
  have h2 : i + 1 < l.length := by omega
  have h3 : i + 2 < l.length := by omega
  have hd : l.drop i = l[i] :: l[i + 1] :: l[i + 2] :: l.drop (i + 3) := by
    rw [List.drop_eq_getElem_cons h1, List.drop_eq_getElem_cons h2,
        List.drop_eq_getElem_cons h3]
  have htake : ∀ (a b c : Nat) (t : List Nat), List.take 3 (a :: b :: c :: t) = [a, b, c] :=
    fun a b c t => rfl
  rw [hd, htake]
  simp [List.getD_eq_getElem?_getD, List.getElem?_eq_getElem, h1, h2, h3]

theorem from_bytes_be_three (a b c : Nat) :
    from_bytes_be [a, b, c] = a * 65536 + b * 256 + c := by
  simp [from_bytes_be]
  ring

theorem band_row_eq (vd : List Nat) (h24 : 24 ≤ vd.length) :
    bandItems vd = (List.range 8).map (fun k =>
        DataItem.BandPower (bandsOrder.getD k .Delta)
          (vd.getD (3 * k) 0 * 65536 + vd.getD (3 * k + 1) 0 * 256
            + vd.getD (3 * k + 2) 0)) := by
  have e : bandsOrder.enum = [(0, BandName.Delta), (1, .Theta), (2, .LowAlpha),
      (3, .HighAlpha), (4, .LowBeta), (5, .HighBeta), (6, .LowGamma), (7, .MidGamma)] := rfl
  have r : List.range 8 = [0, 1, 2, 3, 4, 5, 6, 7] := rfl
  rw [bandItems, e, r]
  simp only [List.map_cons, List.map_nil]
  rw [take3_drop vd (3 * 0) (by omega), take3_drop vd (3 * 1) (by omega),
      take3_drop vd (3 * 2) (by omega), take3_drop vd (3 * 3) (by omega),
      take3_drop vd (3 * 4) (by omega), take3_drop vd (3 * 5) (by omega),
      take3_drop vd (3 * 6) (by omega), take3_drop vd (3 * 7) (by omega)]
  simp [from_bytes_be_three, bandsOrder]

theorem band_sep_row (vd rest : List Nat) :
    BandSep.parse_payload (0x83 :: vd.length :: (vd ++ rest))
      = (if 24 ≤ vd.length then bandItems vd else []) ++ BandSep.parse_payload rest := by
  conv_lhs => rw [BandSep.parse_payload]
  simp [show ¬ (131 : Nat) = 85 by decide, show (131 : Nat) &&& 128 = 128 by decide,
        List.take_left, List.drop_left]

theorem stress_row (vd rest : List Nat) :
    Stress.parse_payload (0x83 :: vd.length :: (vd ++ rest))
      = (if 24 ≤ vd.length then bandItems vd else []) ++ Stress.parse_payload rest := by
  conv_lhs => rw [Stress.parse_payload]
  simp [show ¬ (131 : Nat) = 85 by decide, show (131 : Nat) &&& 128 = 128 by decide,
        List.take_left, List.drop_left]

/-- Claim C6: a `0x83` row whose value data `vd` has at least 24 bytes makes
the decoder emit exactly 8 `BandPower` items in the fixed order
`Delta, Theta, LowAlpha, HighAlpha, LowBeta, HighBeta, LowGamma, MidGamma`
(`bandsOrder`), the item of band index `k` carrying the unsigned big-endian
value of the bytes at offsets `3k, 3k+1, 3k+2` of `vd`; with fewer than 24
value bytes no `BandPower` item is emitted.  Holds for both decoders that
recognize `0x83` (band_sep.py and stress.py). -/
theorem asic_band_rows (vd rest : List Nat) :
    (BandSep.parse_payload (0x83 :: vd.length :: (vd ++ rest))
        = (if 24 ≤ vd.length then
             (List.range 8).map (fun k =>
               DataItem.BandPower (bandsOrder.getD k .Delta)
                 (vd.getD (3 * k) 0 * 65536 + vd.getD (3 * k + 1) 0 * 256
                   + vd.getD (3 * k + 2) 0))
           else []) ++ BandSep.parse_payload rest)
      ∧ (Stress.parse_payload (0x83 :: vd.length :: (vd ++ rest))
        = (if 24 ≤ vd.length then
             (List.range 8).map (fun k =>
               DataItem.BandPower (bandsOrder.getD k .Delta)
                 (vd.getD (3 * k) 0 * 65536 + vd.getD (3 * k + 1) 0 * 256
                   + vd.getD (3 * k + 2) 0))
           else []) ++ Stress.parse_payload rest) := by
  constructor
  · rw [band_sep_row]
    by_cases h24 : 24 ≤ vd.length
    · rw [if_pos h24, if_pos h24, band_row_eq vd h24]
    · rw [if_neg h24, if_neg h24]
  · rw [stress_row]
    by_cases h24 : 24 ≤ vd.length
    · rw [if_pos h24, if_pos h24, band_row_eq vd h24]
    · rw [if_neg h24, if_neg h24]

/- ### Claim C7: single-byte code as the last payload byte -/

/-- Claim C7 counterexample: in band_sep.py's and stress.py's decoders a
recognized single-byte code (`0x02`) that is the last byte of the payload
does NOT yield its item with value 0 — the `if i >= len(payload): break`
branch stops decoding and emits nothing. -/
theorem missing_value_byte_counterexample :
    BandSep.parse_payload [0x02] = [] ∧
      BandSep.parse_payload [0x02] ≠ [DataItem.SignalQuality 0] ∧
      Stress.parse_payload [0x02] = [] := by
  have h1 : BandSep.parse_payload [0x02] = [] := by
    simp [BandSep.parse_payload, show (2 : Nat) &&& 128 = 0 by decide]
  have h2 : Stress.parse_payload [0x02] = [] := by
    simp [Stress.parse_payload, show (2 : Nat) &&& 128 = 0 by decide]
  refine ⟨h1, ?_, h2⟩
  rw [h1]
  decide

/-- Claim C7 (amended): in main.py's decoder a recognized single-byte code
(`0x02`, `0x04`, `0x05`) that is the last byte of the payload is decoded as
if followed by a value byte 0 and still yields its item; band_sep.py's and
stress.py's decoders instead stop at the truncated row and emit nothing for
it (see the counterexample). -/
theorem missing_value_byte (code : Nat)
    (h : code = 0x02 ∨ code = 0x04 ∨ code = 0x05) :
    MindSet.parse_payload [code] = MindSet.parse_payload [code, 0] ∧
      MindSet.parse_payload [code] ≠ [] := by
  rcases h with rfl | rfl | rfl
  · constructor <;>
      simp [MindSet.parse_payload, show (2 : Nat) &&& 128 = 0 by decide]
  · constructor <;>
      simp [MindSet.parse_payload, show (4 : Nat) &&& 128 = 0 by decide,
        show ¬ (4 : Nat) = 2 by decide]
  · constructor <;>
      simp [MindSet.parse_payload, show (5 : Nat) &&& 128 = 0 by decide,
        show ¬ (5 : Nat) = 2 by decide, show ¬ (5 : Nat) = 4 by decide]

theorem missing_value_byte_witness :
    MindSet.parse_payload [0x02] = MindSet.parse_payload [0x02, 0] ∧
      MindSet.parse_payload [0x02] ≠ [] :=
  missing_value_byte 0x02 (Or.inl rfl)

/- ### Claim C8: sequences of recognized single-byte rows -/

/-- Claim C8: a payload that is a concatenation of recognized single-byte
rows (a code in `{0x02, 0x04, 0x05}` followed by one value byte) is decoded
by main.py's decoder into exactly one item per row, in payload order, with
`0x02 ↦ SignalQuality`, `0x04 ↦ Attention`, `0x05 ↦ Meditation`. -/
theorem single_byte_row_sequence (rows : List (Nat × Nat))
    (h : ∀ p ∈ rows, p.1 = 0x02 ∨ p.1 = 0x04 ∨ p.1 = 0x05) :
    MindSet.parse_payload (rows.flatMap fun p => [p.1, p.2])
      = rows.map (fun p =>
          if p.1 = 0x02 then DataItem.SignalQuality p.2
          else if p.1 = 0x04 then DataItem.Attention p.2
          else DataItem.Meditation p.2) := by
  induction rows with
  | nil => simp [MindSet.parse_payload]
  | cons p ps ih =>
      obtain ⟨c, v⟩ := p
      have hc := h (c, v) (List.mem_cons_self _ _)
      have hps : ∀ q ∈ ps, q.1 = 0x02 ∨ q.1 = 0x04 ∨ q.1 = 0x05 :=
        fun q hq => h q (List.mem_cons_of_mem _ hq)
      have ihps := ih hps
      simp only [List.flatMap_cons, List.cons_append, List.nil_append, List.map_cons]
      simp only at hc
      rcases hc with hc | hc | hc <;> subst hc
      · conv_lhs => rw [MindSet.parse_payload]
        simp [show (2 : Nat) &&& 128 = 0 by decide, ihps]
      · conv_lhs => rw [MindSet.parse_payload]
        simp [show (4 : Nat) &&& 128 = 0 by decide, show ¬ (4 : Nat) = 2 by decide, ihps]
      · conv_lhs => rw [MindSet.parse_payload]
        simp [show (5 : Nat) &&& 128 = 0 by decide, show ¬ (5 : Nat) = 2 by decide,
          show ¬ (5 : Nat) = 4 by decide, ihps]

theorem single_byte_row_sequence_witness :
    MindSet.parse_payload [0x04, 60, 0x05, 45]
        = [DataItem.Attention 60, DataItem.Meditation 45] ∧
      MindSet.parse_payload [0x02, 0x00] = [DataItem.SignalQuality 0] :=
  ⟨single_byte_row_sequence [(0x04, 60), (0x05, 45)] (by decide),
    single_byte_row_sequence [(0x02, 0x00)] (by decide)⟩

/- ### Claim C9: totality — the checked embeddings never reach an error -/

theorem getElem?_zero_of_ne_nil (l : List Nat) (h : l ≠ []) :
    l[0]? = some (l.headD 0) := by
  cases l with
  | nil => exact absurd rfl h
  | cons a t => simp

/-- A checked rendering of the framer loop.  Every read the source performs
by indexing (`self.packet_buffer[0]`) goes through `getElem?`, and a failed
read — as well as an inner `if len(...) >= 1` length guard with no `break`
(where the Python loop would spin forever) — yields `none`.  The actual
`break` statements (`PAYLOAD` short buffer, `CHECKSUM` short buffer) return
normally. -/
def parse_packetC (m : Monitor) : Option Monitor :=
  if h0 : m.packet_buffer = [] then some m
  else
    match hs : m.packet_state with
    | .SYNC1 =>
        match m.packet_buffer[0]? with
        | none => none
        | some b =>
            parse_packetC { m with
              packet_state := if b = 0xAA then .SYNC2 else .SYNC1,
              packet_buffer := m.packet_buffer.drop 1 }
    | .SYNC2 =>
        if 1 ≤ m.packet_buffer.length then
          match m.packet_buffer[0]? with
          | none => none
          | some b =>
              parse_packetC { m with
                packet_state := if b = 0xAA then .PLENGTH else .SYNC1,
                packet_buffer := m.packet_buffer.drop 1 }
        else none
    | .PLENGTH =>
        if 1 ≤ m.packet_buffer.length then
          match m.packet_buffer[0]? with
          | none => none
          | some b =>
              parse_packetC { m with
                packet_state := if 170 < b then .SYNC1 else .PAYLOAD,
                packet_buffer := m.packet_buffer.drop 1,
                payload_length := b,
                payload := [] }
        else none
    | .PAYLOAD =>
        if m.payload_length ≤ m.packet_buffer.length then
          parse_packetC { m with
            payload := m.payload ++ m.packet_buffer.take m.payload_length,
            packet_buffer := m.packet_buffer.drop m.payload_length,
            packet_state := .CHECKSUM }
        else some m
    | .CHECKSUM =>
        if 1 ≤ m.packet_buffer.length then
          match m.packet_buffer[0]? with
          | none => none
          | some b =>
              parse_packetC { m with
                packet_buffer := m.packet_buffer.drop 1,
                packet_state := .SYNC1,
                out := if b = calc_checksum m.payload then m.out ++ [m.payload] else m.out }
        else some m
termination_by 2 * m.packet_buffer.length + stateRank m.packet_state
decreasing_by
  all_goals
    have hpos : 0 < m.packet_buffer.length := List.length_pos.mpr h0
    simp only [List.length_drop, stateRank, hs]
  all_goals (try split) <;> omega

theorem parse_packetC_eq (m : Monitor) : parse_packetC m = some (parse_packet m) := by
  induction m using parse_packetC.induct with
  | case1 x h =>
      rw [parse_packet_nil x h, parse_packetC.eq_def]
      simp [h]
  | case2 x h0 hs heq =>
      exact absurd (getElem?_zero_of_ne_nil _ h0) (by simp [heq])
  | case3 x h0 hs b heq ih =>
      have hb : b = x.packet_buffer.headD 0 := by
        have h' := getElem?_zero_of_ne_nil _ h0
        rw [heq] at h'
        exact Option.some_inj.mp h'
      subst hb
      simp only [dite_eq_ite] at ih
      rw [parse_packetC.eq_def]
      simp only [dif_neg h0, heq]
      split <;>
        first
          | (exfalso; simp_all; done)
          | rw [ih, parse_packet_step_SYNC1 x h0 hs]
  | case4 x h0 hs hg heq =>
      exact absurd (getElem?_zero_of_ne_nil _ h0) (by simp [heq])
  | case5 x h0 hs hg b heq ih =>
      have hb : b = x.packet_buffer.headD 0 := by
        have h' := getElem?_zero_of_ne_nil _ h0
        rw [heq] at h'
        exact Option.some_inj.mp h'
      subst hb
      simp only [dite_eq_ite] at ih
      rw [parse_packetC.eq_def]
      simp only [dif_neg h0, heq, hg, if_true]
      split <;>
        first
          | (exfalso; simp_all; done)
          | rw [ih, parse_packet_step_SYNC2 x h0 hs]
  | case6 x h0 hs hg =>
      exact absurd (List.length_pos.mpr h0) (by omega)
  | case7 x h0 hs hg heq =>
      exact absurd (getElem?_zero_of_ne_nil _ h0) (by simp [heq])
  | case8 x h0 hs hg b heq ih =>
      have hb : b = x.packet_buffer.headD 0 := by
        have h' := getElem?_zero_of_ne_nil _ h0
        rw [heq] at h'
        exact Option.some_inj.mp h'
      subst hb
      simp only [dite_eq_ite] at ih
      rw [parse_packetC.eq_def]
      simp only [dif_neg h0, heq, hg, if_true]
      split <;>
        first
          | (exfalso; simp_all; done)
          | rw [ih, parse_packet_step_PLENGTH x h0 hs]
  | case9 x h0 hs hg =>
      exact absurd (List.length_pos.mpr h0) (by omega)
  | case10 x h0 hs hlen ih =>
      simp only [dite_eq_ite] at ih
      rw [parse_packetC.eq_def]
      simp only [dif_neg h0, hlen, if_true]
      split <;>
        first
          | (exfalso; simp_all; done)
          | rw [ih, parse_packet_step_PAYLOAD x h0 hs hlen]
  | case11 x h0 hs hlen =>
      rw [parse_packetC.eq_def]
      simp only [dif_neg h0, hlen, if_false]
      split <;>
        first
          | (exfalso; simp_all; done)
          | rw [parse_packet_stuck_PAYLOAD x hs hlen]
  | case12 x h0 hs hg heq =>
      exact absurd (getElem?_zero_of_ne_nil _ h0) (by simp [heq])
  | case13 x h0 hs hg b heq ih =>
      have hb : b = x.packet_buffer.headD 0 := by
        have h' := getElem?_zero_of_ne_nil _ h0
        rw [heq] at h'
        exact Option.some_inj.mp h'
      subst hb
      simp only [dite_eq_ite] at ih
      rw [parse_packetC.eq_def]
      simp only [dif_neg h0, heq, hg, if_true]
      split <;>
        first
          | (exfalso; simp_all; done)
          | rw [ih, parse_packet_step_CHECKSUM x h0 hs]
  | case14 x h0 hs hg =>
      exact absurd (List.length_pos.mpr h0) (by omega)

namespace MindSet

def parse_payloadC (payload : List Nat) (i : Nat) : Option (List DataItem) :=
  if hlt : i < payload.length then
    match payload[i]? with
    | none => none
    | some b =>
      if b = 0x55 then parse_payloadC payload (i + 1)
      else if b &&& 0x80 ≠ 0 then
        if i + 1 < payload.length then
          match payload[i + 1]? with
          | none => none
          | some length =>
            (parse_payloadC payload (i + 2 + length)).map (fun items =>
              (if b = 0x80 then
                 if 2 ≤ ((payload.drop (i + 2)).take length).length then
                   [DataItem.RawEEG (from_bytes_2_signed ((payload.drop (i + 2)).take length))]
                 else []
               else []) ++ items)
        else some []
      else
        if i + 1 < payload.length then
          match payload[i + 1]? with
          | none => none
          | some v =>
            (parse_payloadC payload (i + 2)).map (fun items =>
              (if b = 0x02 then [DataItem.SignalQuality v]
               else if b = 0x04 then [DataItem.Attention v]
               else if b = 0x05 then [DataItem.Meditation v]
               else []) ++ items)
        else
          (parse_payloadC payload (i + 2)).map (fun items =>
            (if b = 0x02 then [DataItem.SignalQuality 0]
             else if b = 0x04 then [DataItem.Attention 0]
             else if b = 0x05 then [DataItem.Meditation 0]
             else []) ++ items)
  else some []
termination_by payload.length - i
decreasing_by all_goals omega

end MindSet



theorem drop_cons_of_getElem? (l : List Nat) (x b : Nat) (h : l[x]? = some b) :
    l.drop x = b :: l.drop (x + 1) := by
  have hlt : x < l.length := by
    by_contra hge
    rw [List.getElem?_eq_none (by omega)] at h
    exact Option.noConfusion h
  have hb : l[x] = b := by
    have := List.getElem?_eq_getElem hlt
    rw [h] at this
    exact (Option.some_inj.mp this).symm
  rw [List.drop_eq_getElem_cons hlt, hb]

theorem mindset_parse_payloadC_eq (payload : List Nat) (i : Nat) :
    MindSet.parse_payloadC payload i = some (MindSet.parse_payload (payload.drop i)) := by
  induction i using MindSet.parse_payloadC.induct payload with
  | case1 x hlt hnone =>
      rw [List.getElem?_eq_getElem hlt] at hnone
      exact Option.noConfusion hnone
  | case2 x hlt hx ih =>
      rw [MindSet.parse_payloadC.eq_def]
      simp only [dif_pos hlt, hx]
      rw [ih, drop_cons_of_getElem? _ _ _ hx]
      conv_rhs => rw [MindSet.parse_payload.eq_def]
      simp
  | case3 x hlt b hx hb85 hband hx1 hnone =>
      rw [List.getElem?_eq_getElem hx1] at hnone
      exact Option.noConfusion hnone
  | case4 x hlt b hx hb85 hband hx1 length hx1v ih =>
      have hd1 : payload.drop x = b :: payload.drop (x + 1) := drop_cons_of_getElem? _ _ _ hx
      have hd2 : payload.drop (x + 1) = length :: payload.drop (x + 2) :=
        drop_cons_of_getElem? _ _ _ hx1v
      rw [MindSet.parse_payloadC.eq_def]
      simp only [dif_pos hlt, hx, hb85, hband, hx1, hx1v, if_true, if_false, ite_true, ite_false]
      rw [ih, hd1]
      conv_rhs => rw [MindSet.parse_payload.eq_def]
      simp [hb85, hband, hx1, hd2, List.drop_drop]
  | case5 x hlt b hx hb85 hband hx1 =>
      have hd1 : payload.drop x = b :: payload.drop (x + 1) := drop_cons_of_getElem? _ _ _ hx
      have hd2 : payload.drop (x + 1) = [] := by
        rw [List.drop_eq_nil_iff]
        omega
      rw [MindSet.parse_payloadC.eq_def]
      simp only [dif_pos hlt, hx, hb85, hband, hx1, if_true, if_false, ite_true, ite_false]
      rw [hd1]
      conv_rhs => rw [MindSet.parse_payload.eq_def]
      simp [hb85, hband, hx1, hd2]
  | case6 x hlt b hx hb85 hband hx1 hnone =>
      rw [List.getElem?_eq_getElem hx1] at hnone
      exact Option.noConfusion hnone
  | case7 x hlt b hx hb85 hband hx1 v hx1v ih =>
      have hd1 : payload.drop x = b :: payload.drop (x + 1) := drop_cons_of_getElem? _ _ _ hx
      have hd2 : payload.drop (x + 1) = v :: payload.drop (x + 2) :=
        drop_cons_of_getElem? _ _ _ hx1v
      rw [MindSet.parse_payloadC.eq_def]
      simp only [dif_pos hlt, hx, hb85, hband, hx1, hx1v, if_true, if_false, ite_true, ite_false]
      rw [ih, hd1]
      conv_rhs => rw [MindSet.parse_payload.eq_def]
      simp [hb85, hband, hx1, hd2]
  | case8 x hlt b hx hb85 hband hx1 ih =>
      have hd1 : payload.drop x = b :: payload.drop (x + 1) := drop_cons_of_getElem? _ _ _ hx
      have hd2 : payload.drop (x + 1) = [] := by
        rw [List.drop_eq_nil_iff]
        omega
      have hd3 : payload.drop (x + 2) = [] := by
        rw [List.drop_eq_nil_iff]
        omega
      rw [MindSet.parse_payloadC.eq_def]
      simp only [dif_pos hlt, hx, hb85, hband, hx1, if_true, if_false, ite_true, ite_false]
      rw [ih, hd1, hd3]
      conv_rhs => rw [MindSet.parse_payload.eq_def]
      simp [hb85, hband, hx1, hd2, MindSet.parse_payload]
  | case9 x hge =>
      have hd : payload.drop x = [] := by
        rw [List.drop_eq_nil_iff]
        omega
      rw [MindSet.parse_payloadC.eq_def]
      simp only [dif_neg hge]
      rw [hd]
      conv_rhs => rw [MindSet.parse_payload.eq_def]

namespace BandSep

/-- Checked, index-based rendering of band_sep.py's `parse_payload`: every
`payload[i]` read goes through `getElem?` (`none` on an out-of-range read);
the `while`/inner-skip loops become recursion on the running index; the
source's bound checks (`i >= len(payload)` breaks, the conditional value
read) appear as the explicit `<` tests.  Slices (`payload[i:i+length]`)
cannot raise in Python and are rendered with `drop`/`take`. -/
def parse_payloadC (payload : List Nat) (i : Nat) : Option (List DataItem) :=
  if hlt : i < payload.length then
    match payload[i]? with
    | none => none
    | some b =>
      if b = 0x55 then parse_payloadC payload (i + 1)
      else if b &&& 0x80 ≠ 0 then
        if i + 1 < payload.length then
          match payload[i + 1]? with
          | none => none
          | some length =>
            (parse_payloadC payload (i + 2 + length)).map (fun items =>
              (if b = 0x83 then
                 if 24 ≤ ((payload.drop (i + 2)).take length).length then
                   bandItems ((payload.drop (i + 2)).take length)
                 else []
               else if b = 0x80 then
                 if 2 ≤ ((payload.drop (i + 2)).take length).length then
                   [DataItem.RawEEG (from_bytes_2_signed ((payload.drop (i + 2)).take length))]
                 else []
               else []) ++ items)
        else some []
      else
        if i + 1 < payload.length then
          match payload[i + 1]? with
          | none => none
          | some v =>
            (parse_payloadC payload (i + 2)).map (fun items =>
              (if b = 0x02 then [DataItem.SignalQuality v] else []) ++ items)
        else some []
  else some []
termination_by payload.length - i
decreasing_by all_goals omega

end BandSep

theorem band_sep_parse_payloadC_eq (payload : List Nat) (i : Nat) :
    BandSep.parse_payloadC payload i = some (BandSep.parse_payload (payload.drop i)) := by
  induction i using BandSep.parse_payloadC.induct payload with
  | case1 x hlt hnone =>
      rw [List.getElem?_eq_getElem hlt] at hnone
      exact Option.noConfusion hnone
  | case2 x hlt hx ih =>
      rw [BandSep.parse_payloadC.eq_def]
      simp only [dif_pos hlt, hx]
      rw [ih, drop_cons_of_getElem? _ _ _ hx]
      conv_rhs => rw [BandSep.parse_payload.eq_def]
      simp
  | case3 x hlt b hx hb85 hband hx1 hnone =>
      rw [List.getElem?_eq_getElem hx1] at hnone
      exact Option.noConfusion hnone
  | case4 x hlt b hx hb85 hband hx1 length hx1v ih =>
      have hd1 : payload.drop x = b :: payload.drop (x + 1) := drop_cons_of_getElem? _ _ _ hx
      have hd2 : payload.drop (x + 1) = length :: payload.drop (x + 2) :=
        drop_cons_of_getElem? _ _ _ hx1v
      rw [BandSep.parse_payloadC.eq_def]
      simp only [dif_pos hlt, hx, hb85, hband, hx1, hx1v, if_true, if_false, ite_true, ite_false]
      rw [ih, hd1]
      conv_rhs => rw [BandSep.parse_payload.eq_def]
      simp [hb85, hband, hx1, hd2, List.drop_drop]
  | case5 x hlt b hx hb85 hband hx1 =>
      have hd1 : payload.drop x = b :: payload.drop (x + 1) := drop_cons_of_getElem? _ _ _ hx
      have hd2 : payload.drop (x + 1) = [] := by
        rw [List.drop_eq_nil_iff]
        omega
      rw [BandSep.parse_payloadC.eq_def]
      simp only [dif_pos hlt, hx, hb85, hband, hx1, if_true, if_false, ite_true, ite_false]
      rw [hd1]
      conv_rhs => rw [BandSep.parse_payload.eq_def]
      simp [hb85, hband, hx1, hd2]
  | case6 x hlt b hx hb85 hband hx1 hnone =>
      rw [List.getElem?_eq_getElem hx1] at hnone
      exact Option.noConfusion hnone
  | case7 x hlt b hx hb85 hband hx1 v hx1v ih =>
      have hd1 : payload.drop x = b :: payload.drop (x + 1) := drop_cons_of_getElem? _ _ _ hx
      have hd2 : payload.drop (x + 1) = v :: payload.drop (x + 2) :=
        drop_cons_of_getElem? _ _ _ hx1v
      rw [BandSep.parse_payloadC.eq_def]
      simp only [dif_pos hlt, hx, hb85, hband, hx1, hx1v, if_true, if_false, ite_true, ite_false]
      rw [ih, hd1]
      conv_rhs => rw [BandSep.parse_payload.eq_def]
      simp [hb85, hband, hx1, hd2]
  | case8 x hlt b hx hb85 hband hx1 =>
      have hd1 : payload.drop x = b :: payload.drop (x + 1) := drop_cons_of_getElem? _ _ _ hx
      have hd2 : payload.drop (x + 1) = [] := by
        rw [List.drop_eq_nil_iff]
        omega
      rw [BandSep.parse_payloadC.eq_def]
      simp only [dif_pos hlt, hx, hb85, hband, hx1, if_true, if_false, ite_true, ite_false]
      rw [hd1]
      conv_rhs => rw [BandSep.parse_payload.eq_def]
      simp [hb85, hband, hx1, hd2]
  | case9 x hge =>
      have hd : payload.drop x = [] := by
        rw [List.drop_eq_nil_iff]
        omega
      rw [BandSep.parse_payloadC.eq_def]
      simp only [dif_neg hge]
      rw [hd]
      conv_rhs => rw [BandSep.parse_payload.eq_def]

namespace Stress

/-- Checked, index-based rendering of stress.py's `parse_payload`, on the
same pattern as `BandSep.parse_payloadC` (only `0x83` is recognized among
multi-byte codes, only `0x02` among single-byte codes). -/
def parse_payloadC (payload : List Nat) (i : Nat) : Option (List DataItem) :=
  if hlt : i < payload.length then
    match payload[i]? with
    | none => none
    | some b =>
      if b = 0x55 then parse_payloadC payload (i + 1)
      else if b &&& 0x80 ≠ 0 then
        if i + 1 < payload.length then
          match payload[i + 1]? with
          | none => none
          | some length =>
            (parse_payloadC payload (i + 2 + length)).map (fun items =>
              (if b = 0x83 then
                 if 24 ≤ ((payload.drop (i + 2)).take length).length then
                   bandItems ((payload.drop (i + 2)).take length)
                 else []
               else []) ++ items)
        else some []
      else
        if i + 1 < payload.length then
          match payload[i + 1]? with
          | none => none
          | some v =>
            (parse_payloadC payload (i + 2)).map (fun items =>
              (if b = 0x02 then [DataItem.SignalQuality v] else []) ++ items)
        else some []
  else some []
termination_by payload.length - i
decreasing_by all_goals omega

end Stress

theorem stress_parse_payloadC_eq (payload : List Nat) (i : Nat) :
    Stress.parse_payloadC payload i = some (Stress.parse_payload (payload.drop i)) := by
  induction i using Stress.parse_payloadC.induct payload with
  | case1 x hlt hnone =>
      rw [List.getElem?_eq_getElem hlt] at hnone
      exact Option.noConfusion hnone
  | case2 x hlt hx ih =>
      rw [Stress.parse_payloadC.eq_def]
      simp only [dif_pos hlt, hx]
      rw [ih, drop_cons_of_getElem? _ _ _ hx]
      conv_rhs => rw [Stress.parse_payload.eq_def]
      simp
  | case3 x hlt b hx hb85 hband hx1 hnone =>
      rw [List.getElem?_eq_getElem hx1] at hnone
      exact Option.noConfusion hnone
  | case4 x hlt b hx hb85 hband hx1 length hx1v ih =>
      have hd1 : payload.drop x = b :: payload.drop (x + 1) := drop_cons_of_getElem? _ _ _ hx
      have hd2 : payload.drop (x + 1) = length :: payload.drop (x + 2) :=
        drop_cons_of_getElem? _ _ _ hx1v
      rw [Stress.parse_payloadC.eq_def]
      simp only [dif_pos hlt, hx, hb85, hband, hx1, hx1v, if_true, if_false, ite_true, ite_false]
      rw [ih, hd1]
      conv_rhs => rw [Stress.parse_payload.eq_def]
      simp [hb85, hband, hx1, hd2, List.drop_drop]
  | case5 x hlt b hx hb85 hband hx1 =>
      have hd1 : payload.drop x = b :: payload.drop (x + 1) := drop_cons_of_getElem? _ _ _ hx
      have hd2 : payload.drop (x + 1) = [] := by
        rw [List.drop_eq_nil_iff]
        omega
      rw [Stress.parse_payloadC.eq_def]
      simp only [dif_pos hlt, hx, hb85, hband, hx1, if_true, if_false, ite_true, ite_false]
      rw [hd1]
      conv_rhs => rw [Stress.parse_payload.eq_def]
      simp [hb85, hband, hx1, hd2]
  | case6 x hlt b hx hb85 hband hx1 hnone =>
      rw [List.getElem?_eq_getElem hx1] at hnone
      exact Option.noConfusion hnone
  | case7 x hlt b hx hb85 hband hx1 v hx1v ih =>
      have hd1 : payload.drop x = b :: payload.drop (x + 1) := drop_cons_of_getElem? _ _ _ hx
      have hd2 : payload.drop (x + 1) = v :: payload.drop (x + 2) :=
        drop_cons_of_getElem? _ _ _ hx1v
      rw [Stress.parse_payloadC.eq_def]
      simp only [dif_pos hlt, hx, hb85, hband, hx1, hx1v, if_true, if_false, ite_true, ite_false]
      rw [ih, hd1]
      conv_rhs => rw [Stress.parse_payload.eq_def]
      simp [hb85, hband, hx1, hd2]
  | case8 x hlt b hx hb85 hband hx1 =>
      have hd1 : payload.drop x = b :: payload.drop (x + 1) := drop_cons_of_getElem? _ _ _ hx
      have hd2 : payload.drop (x + 1) = [] := by
        rw [List.drop_eq_nil_iff]
        omega
      rw [Stress.parse_payloadC.eq_def]
      simp only [dif_pos hlt, hx, hb85, hband, hx1, if_true, if_false, ite_true, ite_false]
      rw [hd1]
      conv_rhs => rw [Stress.parse_payload.eq_def]
      simp [hb85, hband, hx1, hd2]
  | case9 x hge =>
      have hd : payload.drop x = [] := by
        rw [List.drop_eq_nil_iff]
        omega
      rw [Stress.parse_payloadC.eq_def]
      simp only [dif_neg hge]
      rw [hd]
      conv_rhs => rw [Stress.parse_payload.eq_def]

/-- Claim C9: for every framer state and every input, the checked embeddings
— in which each indexed read of the Python source is an explicit `getElem?`
and each unreachable guard is an explicit `none` branch — return `some` of
the total embeddings: no exception (and no divergent guard) is ever
reached, for arbitrary corruption, truncation, unknown codes or checksum
mismatches; all malformed input is handled by silent drop-and-resync or
field-level skip. -/
theorem no_exceptions (m : Monitor) (payload : List Nat) :
    parse_packetC m = some (parse_packet m) ∧
      MindSet.parse_payloadC payload 0 = some (MindSet.parse_payload payload) ∧
      BandSep.parse_payloadC payload 0 = some (BandSep.parse_payload payload) ∧
      Stress.parse_payloadC payload 0 = some (Stress.parse_payload payload) :=
  ⟨parse_packetC_eq m,
    by simpa using mindset_parse_payloadC_eq payload 0,
    by simpa using band_sep_parse_payloadC_eq payload 0,
    by simpa using stress_parse_payloadC_eq payload 0⟩
